import Mathlib

/-!
Shallow embedding of the readiness/self-heal guardrail subsystem
(`fb_cost_readiness_guardrail.py`, `readiness_guardrail.py`,
`forecast_d1_readiness.py`, `forecast_self_heal.py`).

Modelling conventions:
- Python floats are modelled as exact rationals (`ℚ`); machine timestamps as `Int`
  (UTC microsecond instants; timezone conversion is order-preserving and is left to
  the SDK, so comparisons on converted values are comparisons on `Int`/record values).
- Fallible calls to external services (Cloud Storage, BigQuery) are modelled as
  `Except`-valued environment fields supplied to the checkers.
- Python string builtins (`strip`, `split`, `int`, `float`) are re-implemented over
  `List Char` so that the kernel can evaluate them; `float` is modelled over finite
  decimal literals (non-finite literals `inf`/`nan` denote values outside the
  rational model and are treated as unparseable here).
-/

/-- Model of Python `str.strip()`: drop whitespace at both ends. -/
def stripChars (cs : List Char) : List Char :=
  ((cs.dropWhile Char.isWhitespace).reverse.dropWhile Char.isWhitespace).reverse

/-- `str.strip()` on a Lean `String`. -/
def pyStrip (s : String) : String :=
  String.mk (stripChars s.toList)

/-- Model of Python no-argument `str.split()`: split on whitespace runs, dropping
empty tokens. -/
def splitWs (cs : List Char) : List (List Char) :=
  let r := cs.foldl
    (fun (acc : List (List Char) × List Char) (c : Char) =>
      if c.isWhitespace then (if acc.2 = [] then acc.1 else acc.1 ++ [acc.2], [])
      else (acc.1, acc.2 ++ [c])) ([], [])
  if r.2 = [] then r.1 else r.1 ++ [r.2]

/-- Value and digit count of a Python digit group `digit (("_")? digit)*`
(underscores allowed singly between digits, as in CPython's int/float grammar).
Returns `(value, number-of-digits)`. -/
def digitGroupAux : List Char → Nat × Nat → Option (Nat × Nat)
  | [], acc => some acc
  | '_' :: c :: rest, acc =>
    if c.isDigit then digitGroupAux rest (10 * acc.1 + (c.toNat - 48), acc.2 + 1) else none
  | ['_'], _ => none
  | c :: rest, acc =>
    if c.isDigit then digitGroupAux rest (10 * acc.1 + (c.toNat - 48), acc.2 + 1) else none

/-- A full digit group: nonempty, starts with a digit. -/
def digitGroup? (cs : List Char) : Option (Nat × Nat) :=
  match cs with
  | c :: rest => if c.isDigit then digitGroupAux rest (c.toNat - 48, 1) else none
  | [] => none

/-- Model of Python `int(str)`: strip, optional sign, digit group. -/
def pyInt (s : String) : Option Int :=
  match stripChars s.toList with
  | '+' :: rest => (digitGroup? rest).map (fun v => (v.1 : Int))
  | '-' :: rest => (digitGroup? rest).map (fun v => -(v.1 : Int))
  | cs => (digitGroup? cs).map (fun v => (v.1 : Int))

/-- Split a char list at the first char satisfying `p`; `none` if no such char. -/
def splitAtFirst (p : Char → Bool) : List Char → List Char × Option (List Char)
  | [] => ([], none)
  | c :: rest =>
    if p c then ([], some rest)
    else
      let r := splitAtFirst p rest
      (c :: r.1, r.2)

/-- Mantissa value of a float literal: integer part and optional fractional part. -/
def pyFloatMantissa (intPart : List Char) (fracPart? : Option (List Char)) : Option ℚ :=
  match fracPart? with
  | none => (digitGroup? intPart).map (fun v => (v.1 : ℚ))
  | some fp =>
    match intPart, fp with
    | [], [] => none
    | [], _ => (digitGroup? fp).map (fun v => (v.1 : ℚ) / (10 : ℚ) ^ v.2)
    | _, [] => (digitGroup? intPart).map (fun v => (v.1 : ℚ))
    | _, _ =>
      match digitGroup? intPart, digitGroup? fp with
      | some vi, some vf => some ((vi.1 : ℚ) + (vf.1 : ℚ) / (10 : ℚ) ^ vf.2)
      | _, _ => none

/-- Exponent of a float literal (the part after `e`/`E`). -/
def pyFloatExp (ep : List Char) : Option Int :=
  match ep with
  | '+' :: rest => (digitGroup? rest).map (fun v => (v.1 : Int))
  | '-' :: rest => (digitGroup? rest).map (fun v => -(v.1 : Int))
  | _ => (digitGroup? ep).map (fun v => (v.1 : Int))

/-- Model of Python `float(str)` over finite decimal literals, as an exact rational.
`inf`/`infinity`/`nan` literals denote non-rational values and are out of this
model (`none`). -/
def pyFloat (s : String) : Option ℚ :=
  let cs := stripChars s.toList
  let signBody : ℚ × List Char :=
    match cs with
    | '+' :: rest => (1, rest)
    | '-' :: rest => (-1, rest)
    | _ => (1, cs)
  let em := splitAtFirst (fun c => c == 'e' || c == 'E') signBody.2
  let ifr := splitAtFirst (fun c => c == '.') em.1
  let mant? := pyFloatMantissa ifr.1 ifr.2
  let exp? : Option Int :=
    match em.2 with
    | none => some 0
    | some ep => pyFloatExp ep
  match mant?, exp? with
  | some m, some e => some (signBody.1 * m * (10 : ℚ) ^ e)
  | _, _ => none

/-! ## Cloud Storage object model (fb_cost_readiness_guardrail.py) -/

/-- One object version ("generation") as returned by a versioned `list_blobs`.
Timestamps are UTC instants as integers; `none` models a missing attribute. -/
structure Blob where
  generation : Nat
  timeCreated : Option Int
  updated : Option Int
deriving DecidableEq, Repr

/-- The ordering key of `_pick_generation_asof.updated_ts`: prefer `time_created`,
fall back to `updated`, else the epoch (0). -/
def blobKey (b : Blob) : Int :=
  match b.timeCreated with
  | some t => t
  | none =>
    match b.updated with
    | some t => t
    | none => 0

/-- Comparison used to sort blobs by `updated_ts`. -/
def blobLE (b₁ b₂ : Blob) : Prop :=
  blobKey b₁ ≤ blobKey b₂

instance : DecidableRel blobLE := fun b₁ b₂ => by
  unfold blobLE; infer_instance

instance : IsTotal Blob blobLE :=
  ⟨fun a b => le_total (blobKey a) (blobKey b)⟩

instance : IsTrans Blob blobLE :=
  ⟨fun _ _ _ h₁ h₂ => le_trans h₁ h₂⟩

/-- `_pick_generation_asof`: returns `(as_of_blob, current_blob)`. The source sorts
with Python's stable `sorted(key=updated_ts)`; `List.insertionSort` with the key
comparison is the same stable sort. -/
def pickGenerationAsof (blobs : List Blob) (slaUtc : Int) : Option Blob × Option Blob :=
  match blobs with
  | [] => (none, none)
  | _ =>
    let blobsSorted := List.insertionSort blobLE blobs
    let currentBlob := blobsSorted.getLast?
    let asofCandidates := blobsSorted.filter (fun b => blobKey b ≤ slaUtc)
    (asofCandidates.getLast?, currentBlob)

/-- The access errors caught per spec: `google.api_core.exceptions.Forbidden` and
`NotFound`, with their message text. -/
inductive GErr where
  | forbidden (msg : String)
  | notFound (msg : String)
deriving DecidableEq, Repr

/-- `exc.__class__.__name__`. -/
def GErr.className : GErr → String
  | .forbidden _ => "Forbidden"
  | .notFound _ => "NotFound"

/-- `exc.message`. -/
def GErr.message : GErr → String
  | .forbidden m => m
  | .notFound m => m

/-- One data row of the legacy cost export CSV, restricted to the two columns the
checker reads (`row.get("date_start")`, `row.get("spend")`; `none` models a missing
value as Python's `None`). -/
structure CsvRow where
  dateStart : Option String
  spend : Option String
deriving DecidableEq, Repr

/-- A parsed CSV document: the header (`reader.fieldnames`) plus data rows. -/
structure CsvDoc where
  fieldnames : List String
  rows : List CsvRow
deriving DecidableEq, Repr

/-- The contribution of one row's raw spend cell to `sum_spend` in
`_csv_sum_spend_for_date`: empty adds `0.0`, a parse failure is swallowed
(adding nothing), otherwise the parsed float is added. -/
def spendContribution (raw : String) : ℚ :=
  if raw = "" then 0
  else
    match pyFloat raw with
    | some q => q
    | none => 0

/-- One iteration of the row loop of `_csv_sum_spend_for_date`: skip rows whose
stripped `date_start` differs from the target, else count the row and add its
spend. -/
def sumSpendStep (dateStart : String) (acc : Nat × ℚ) (row : CsvRow) : Nat × ℚ :=
  if pyStrip (row.dateStart.getD "") ≠ dateStart then acc
  else (acc.1 + 1, acc.2 + spendContribution (pyStrip (row.spend.getD "")))

/-- The row loop of `_csv_sum_spend_for_date`. -/
def sumSpendRows (dateStart : String) (rows : List CsvRow) : Nat × ℚ :=
  rows.foldl (sumSpendStep dateStart) (0, 0)

/-- `_csv_sum_spend_for_date`: empty header yields `(0, 0.0)`; a header missing
`date_start`/`spend` raises `ValueError`; otherwise the row loop runs.
The error value is the exception class name (what the caller reports). -/
def csvSumSpendForDate (doc : CsvDoc) (dateStart : String) : Except String (Nat × ℚ) :=
  if doc.fieldnames.isEmpty then .ok (0, 0)
  else if ¬ ("date_start" ∈ doc.fieldnames ∧ "spend" ∈ doc.fieldnames) then .error "ValueError"
  else .ok (sumSpendRows dateStart doc.rows)

/-- The external storage interactions one `_run_object_check` call makes:
the versioned listing (which can raise `Forbidden`/`NotFound`), and the
per-generation download+decode (whose failure carries the exception class name). -/
structure ObjectEnv where
  listBlobs : Except GErr (List Blob)
  download : Nat → Except String CsvDoc

/-- The fields of `ObjectResult` that the evaluation logic determines. -/
structure ObjCheck where
  status : String
  reason : String
  rowCount : Nat
  sumSpend : ℚ
  asofGeneration : Option Nat
  currentGeneration : Option Nat
deriving Repr

/-- `_run_object_check`, with the storage calls abstracted into `env`. -/
def runObjectCheck (env : ObjectEnv) (dateStart : String) (slaUtc : Int) : ObjCheck :=
  match env.listBlobs with
  | .error e => ⟨"FAIL", e.className, 0, 0, none, none⟩
  | .ok blobs =>
    match pickGenerationAsof blobs slaUtc with
    | (_, none) => ⟨"FAIL", "object_not_found", 0, 0, none, none⟩
    | (none, some cur) =>
      ⟨"FAIL", "no_generation_before_sla", 0, 0, none, some cur.generation⟩
    | (some asofB, some cur) =>
      match (env.download asofB.generation).bind (fun doc => csvSumSpendForDate doc dateStart) with
      | .error cls =>
        ⟨"FAIL", "download_or_parse_error:" ++ cls, 0, 0,
          some asofB.generation, some cur.generation⟩
      | .ok (rc, s) =>
        if s > 0 then ⟨"PASS", "", rc, s, some asofB.generation, some cur.generation⟩
        else ⟨"FAIL", "sum_spend_not_positive", rc, s,
          some asofB.generation, some cur.generation⟩

/-! ## Table-freshness model (readiness_guardrail.py) -/

/-- Matching for `_like_pattern_to_regex`: `%` becomes `.*`, every other char is a
literal, and the regex is anchored `^...$`. -/
def likeMatchL : List Char → List Char → Bool
  | [], s => s.isEmpty
  | '%' :: ps, [] => likeMatchL ps []
  | '%' :: ps, c :: s' => likeMatchL ps (c :: s') || likeMatchL ('%' :: ps) s'
  | _ :: _, [] => false
  | p :: ps, c :: cs => p == c && likeMatchL ps cs
termination_by ps s => (ps.length, s.length)

/-- Whole-table-id LIKE-pattern match. -/
def likeMatch (pattern s : String) : Bool :=
  likeMatchL pattern.toList s.toList

/-- A local-timezone civil instant: day index plus microsecond-of-day. Comparisons
of `datetime` values in one timezone are lexicographic on (date, time-of-day). -/
structure LocalDT where
  day : Int
  tod : Int
deriving DecidableEq, Repr

/-- `datetime` strict order (same timezone). -/
def localLT (a b : LocalDT) : Prop :=
  a.day < b.day ∨ (a.day = b.day ∧ a.tod < b.tod)

instance : DecidableRel localLT := fun a b => by
  unfold localLT; infer_instance

/-- The per-table classification of `readiness_guardrail.run` (lines 299-307):
date mismatch first, then late-after-SLA, else PASS. `lmLocal` is the table's
last-modified instant converted to the local timezone; the SLA instant is
`datetime.combine(date_local, sla_local_time)`. -/
def classifyFreshness (dateLocal : Int) (slaTod : Int) (lmLocal : LocalDT) : String × String :=
  if lmLocal.day ≠ dateLocal then
    ("FAIL", "date_mismatch (got " ++ toString lmLocal.day ++ ")")
  else if localLT ⟨dateLocal, slaTod⟩ lmLocal then
    ("FAIL", "late_after_sla")
  else
    ("PASS", "")

/-- One table from `list_tables`, with the outcome of its `get_table` metadata
fetch (already converted to the local timezone). -/
structure TableEntry where
  tableId : String
  fetch : Except GErr LocalDT
deriving Repr

/-- The fields of `TableCheckResult` the classification determines. -/
structure FreshRow where
  tableId : String
  status : String
  reason : String
deriving DecidableEq, Repr

/-- The result row for a table whose metadata fetch succeeded. -/
def freshRowOfFetch (dateLocal : Int) (slaTod : Int) (t : TableEntry) : FreshRow :=
  match t.fetch with
  | .ok lm =>
    let sr := classifyFreshness dateLocal slaTod lm
    ⟨t.tableId, sr.1, sr.2⟩
  | .error e => ⟨t.tableId, "FAIL", e.className ++ ": " ++ e.message⟩

/-- The body of `readiness_guardrail.run` for one spec: list tables (listing
failure is one FAIL row carrying `ClassName: message`), filter by LIKE pattern
minus ignored names, hard-FAIL `no_tables_matched` on an empty match set, else
classify each matching table. `isIgnored` abstracts `_is_ignored` over the
compiled ignore regexes. -/
def runFreshnessSpec (listTables : Except GErr (List TableEntry)) (pattern : String)
    (isIgnored : String → Bool) (dateLocal : Int) (slaTod : Int) : List FreshRow :=
  match listTables with
  | .error e => [⟨"", "FAIL", e.className ++ ": " ++ e.message⟩]
  | .ok tables =>
    let matched := tables.filter (fun t => likeMatch pattern t.tableId && !(isIgnored t.tableId))
    if matched.isEmpty then [⟨"", "FAIL", "no_tables_matched"⟩]
    else matched.map (freshRowOfFetch dateLocal slaTod)

/-! ## Forecast D-1 readiness model (forecast_d1_readiness.py) -/

/-- `EPS = 1e-9`. -/
def EPS : ℚ := 1 / 1000000000

/-- `actuals_sum = abs(sessions_sum) + abs(revenue_db_sum) + abs(transactions_db_sum)`
(line 734). -/
def actualsSum (sessions revenue transactions : ℚ) : ℚ :=
  |sessions| + |revenue| + |transactions|

/-- The status/reason decision of the table-13 aggregate check once the query
returned (lines 738-746): no rows, else actuals at most epsilon, else PASS. -/
def d1Table13Classify (rowCount : Int) (sessions revenue transactions : ℚ) : String × String :=
  if rowCount ≤ 0 then ("FAIL", "no_rows_for_date")
  else if actualsSum sessions revenue transactions ≤ EPS then ("FAIL", "actuals_zero")
  else ("PASS", "")

/-- `f"{local_hour:02d}"` for the slot hours this script produces (0 ≤ h ≤ 99). -/
def slotName (h : Int) : String :=
  if h < 10 then "0" ++ toString h else toString h

/-- `_infer_slot_auto`: schedule-string-driven slot inference. `offsetHours` is
`int(now_local.utcoffset().total_seconds() // 3600)`, `nowHour` is `now_local.hour`. -/
def inferSlotAuto (nowHour : Nat) (offsetHours : Int) (ghSchedule : String) : String :=
  let gs := stripChars ghSchedule.toList
  if gs ≠ [] then
    let parts := splitWs gs
    if parts.length < 2 then "noop"
    else
      match pyInt (String.mk (parts.getD 0 [])), pyInt (String.mk (parts.getD 1 [])) with
      | some utcMinute, some utcHour =>
        if utcMinute ≠ 15 then "noop"
        else
          let localHour := utcHour + offsetHours
          if 9 ≤ localHour ∧ localHour ≤ 16 then slotName localHour else "noop"
      | _, _ => "noop"
  else
    if 9 ≤ nowHour ∧ nowHour ≤ 16 then slotName nowHour else "noop"

/-- `is_required` (lines 662-665). -/
def isRequiredD1 (policy country : String) : Bool :=
  if policy = "all" then true
  else String.mk ((stripChars country.toList).map Char.toLower) = "cz"

/-- What the run loop records per spec: its country and whether its overall
status ended up PASS. -/
structure D1SpecOutcome where
  country : String
  passed : Bool
deriving DecidableEq, Repr

/-- `required_failed` after the spec loop. -/
def d1RequiredFailed (policy : String) (outs : List D1SpecOutcome) : Nat :=
  (outs.filter (fun o => isRequiredD1 policy o.country && !o.passed)).length

/-- `optional_failed` after the spec loop. -/
def d1OptionalFailed (policy : String) (outs : List D1SpecOutcome) : Nat :=
  (outs.filter (fun o => !(isRequiredD1 policy o.country) && !o.passed)).length

/-- `status = "FAIL" if required_failed > 0 else "PASS"` (line 1078). -/
def d1SummaryStatus (policy : String) (outs : List D1SpecOutcome) : String :=
  if d1RequiredFailed policy outs > 0 then "FAIL" else "PASS"

/-- Exceptions that can escape `run` outside the per-spec try blocks (missing `bq`,
bad date, config-load errors), plus the per-spec outcomes otherwise. -/
structure D1Env where
  loadError : Option String
  specOutcomes : List D1SpecOutcome

/-- `forecast_d1_readiness.run`, reduced to its control decisions: the returned
value is `(exit code, summary status)`; `.error` is an exception escaping `run`. -/
def d1Run (mode : String) (nowHour : Nat) (offsetHours : Int) (ghSchedule : String)
    (env : D1Env) : Except String (Nat × String) :=
  if mode = "manual" then
    match env.loadError with
    | some e => .error e
    | none =>
      .ok (if d1RequiredFailed "all" env.specOutcomes = 0 then 0 else 2,
        d1SummaryStatus "all" env.specOutcomes)
  else if mode = "auto" then
    if inferSlotAuto nowHour offsetHours ghSchedule = "noop" then .ok (0, "NOOP")
    else
      match env.loadError with
      | some e => .error e
      | none =>
        .ok (if d1RequiredFailed "all" env.specOutcomes = 0 then 0 else 2,
          d1SummaryStatus "all" env.specOutcomes)
  else .error ("Invalid mode: " ++ mode)

/-- `forecast_d1_readiness.main`: any exception from `run` is caught, a best-effort
FAIL summary is written, and the process exits 2 (lines 1150-1168). -/
def d1Main (mode : String) (nowHour : Nat) (offsetHours : Int) (ghSchedule : String)
    (env : D1Env) : Nat :=
  match d1Run mode nowHour offsetHours ghSchedule env with
  | .ok r => r.1
  | .error _ => 2

/-! ## Self-heal model (forecast_self_heal.py) -/

/-- The spec fields the 14_* trigger de-duplication reads. -/
structure HealSpec where
  projectId : String
  dtsConfig14 : String
deriving DecidableEq, Repr

/-- Insertion into a Python `set`, modelled as an order-preserving duplicate-free
list. -/
def pySetInsert (s : List (String × String)) (x : String × String) : List (String × String) :=
  if x ∈ s then s else s ++ [x]

/-- Whether one spec's iteration adds its 14_* trigger config to
`trigger_14_configs` (line 642: only on reaching the FIXED branch — abstracted by
`fired` — with `project_id == "cerano-main"` and a nonempty `dts_config_14`). -/
def healAdds14 (fired : HealSpec → Bool) (spec : HealSpec) : Bool :=
  fired spec && spec.projectId == "cerano-main" && spec.dtsConfig14 ≠ ""

/-- One iteration of the spec loop acting on `trigger_14_configs`. -/
def trigger14Step (fired : HealSpec → Bool) (acc : List (String × String))
    (spec : HealSpec) : List (String × String) :=
  if healAdds14 fired spec then pySetInsert acc (spec.projectId, spec.dtsConfig14) else acc

/-- The contents of `trigger_14_configs` after the spec loop. -/
def trigger14Set (specs : List HealSpec) (fired : HealSpec → Bool) : List (String × String) :=
  specs.foldl (trigger14Step fired) []

/-- Ascending lexicographic order on `(project_id, config)` pairs, as used by
`sorted(trigger_14_configs)`. -/
def pairLE (a b : String × String) : Prop :=
  a.1 < b.1 ∨ (a.1 = b.1 ∧ a.2 ≤ b.2)

instance : DecidableRel pairLE := fun a b => by
  unfold pairLE; infer_instance

/-- The sequence of `_trigger_transfer_run` invocations for 14_* configs: one per
element of the de-duplicated set, in sorted order (lines 701-706). -/
def trigger14Invocations (specs : List HealSpec) (fired : HealSpec → Bool) :
    List (String × String) :=
  List.insertionSort pairLE (trigger14Set specs fired)

/-! ## Largest-remainder allocation (forecast_self_heal.py lines 329-351) -/

/-- The in-place `out[i] += 1` bump loop. Each index is in range in the source;
`List.set` out of range is a no-op, matching nothing being reachable there. -/
def applyBumps : List Int → List Nat → List Int
  | out, [] => out
  | out, i :: is => applyBumps (out.set i (out.getD i 0 + 1)) is

/-- Descending lexicographic order on `(fraction, index)` pairs, as used by
`sorted(..., reverse=True)`. -/
def fracGE (a b : ℚ × Nat) : Prop :=
  b.1 < a.1 ∨ (b.1 = a.1 ∧ b.2 ≤ a.2)

instance : DecidableRel fracGE := fun a b => by
  unfold fracGE; infer_instance

/-- `s = sum(w for w in weights if w > 0)`. -/
def lraPosSum (weights : List ℚ) : ℚ :=
  (weights.filter (fun w => 0 < w)).sum

/-- `wnorm = [max(0.0, w) / s for w in weights]`. -/
def lraWnorm (weights : List ℚ) : List ℚ :=
  weights.map (fun w => max 0 w / lraPosSum weights)

/-- `raw = [total * w for w in wnorm]`. -/
def lraRaw (total : Int) (weights : List ℚ) : List ℚ :=
  (lraWnorm weights).map (fun w => (total : ℚ) * w)

/-- `floors = [int(x) for x in raw]`; `int` truncates toward zero and every `raw`
value is nonnegative there, so it is the floor. -/
def lraFloors (total : Int) (weights : List ℚ) : List Int :=
  (lraRaw total weights).map (fun x => ⌊x⌋)

/-- `rem = total - sum(floors)`. -/
def lraRem (total : Int) (weights : List ℚ) : Int :=
  total - (lraFloors total weights).sum

/-- `fracs = sorted([(raw[i] - floors[i], i) for i in range(len(weights))],
reverse=True)`. -/
def lraFracs (total : Int) (weights : List ℚ) : List (ℚ × Nat) :=
  List.insertionSort fracGE
    ((List.range weights.length).map
      (fun i => ((lraRaw total weights).getD i 0 -
        (((lraFloors total weights).getD i 0 : Int) : ℚ), i)))

/-- `_largest_remainder_int_allocation`. Integer `//` on nonnegative operands
agrees with Lean's `Int` division. -/
def largestRemainderIntAllocation (total : Int) (weights : List ℚ) : List Int :=
  if total ≤ 0 then weights.map (fun _ => 0)
  else if weights = [] then []
  else if lraPosSum weights ≤ 0 then
    let n := weights.length
    let base := total / n
    let rem := total - base * n
    applyBumps (List.replicate n base) (List.range rem.toNat)
  else
    applyBumps (lraFloors total weights)
      ((List.range (lraRem total weights).toNat).map
        (fun j => ((lraFracs total weights).getD
          (j % (lraFracs total weights).length) (0, 0)).2))

/-! ## Helper lemmas -/

theorem mem_pySetInsert {s : List (String × String)} {x y : String × String} :
    y ∈ pySetInsert s x ↔ y ∈ s ∨ y = x := by
  unfold pySetInsert
  split
  · constructor
    · exact fun h => Or.inl h
    · rintro (h | rfl)
      · exact h
      · assumption
  · simp

theorem pySetInsert_nodup {s : List (String × String)} {x : String × String}
    (h : s.Nodup) : (pySetInsert s x).Nodup := by
  unfold pySetInsert
  split
  · exact h
  · rename_i hx
    simpa [List.nodup_append, h] using hx

theorem trigger14_fold_nodup (fired : HealSpec → Bool) (specs : List HealSpec) :
    ∀ acc : List (String × String), acc.Nodup →
      (specs.foldl (trigger14Step fired) acc).Nodup := by
  induction specs with
  | nil => intro acc h; simpa using h
  | cons s rest ih =>
    intro acc h
    simp only [List.foldl_cons]
    apply ih
    unfold trigger14Step
    split
    · exact pySetInsert_nodup h
    · exact h

theorem trigger14_fold_mem (fired : HealSpec → Bool) (specs : List HealSpec) :
    ∀ (acc : List (String × String)) (p : String × String),
      p ∈ specs.foldl (trigger14Step fired) acc ↔
        p ∈ acc ∨ ∃ s ∈ specs, healAdds14 fired s = true ∧ p = (s.projectId, s.dtsConfig14) := by
  induction specs with
  | nil => intro acc p; simp
  | cons s rest ih =>
    intro acc p
    simp only [List.foldl_cons]
    rw [ih]
    unfold trigger14Step
    split
    · rename_i hadd
      rw [mem_pySetInsert]
      constructor
      · rintro ((h | rfl) | ⟨t, ht, hta, htp⟩)
        · exact Or.inl h
        · exact Or.inr ⟨s, by simp, hadd, rfl⟩
        · exact Or.inr ⟨t, by simp [ht], hta, htp⟩
      · rintro (h | ⟨t, ht, hta, htp⟩)
        · exact Or.inl (Or.inl h)
        · rcases List.mem_cons.mp ht with rfl | ht'
          · exact Or.inl (Or.inr htp)
          · exact Or.inr ⟨t, ht', hta, htp⟩
    · rename_i hadd
      constructor
      · rintro (h | ⟨t, ht, hta, htp⟩)
        · exact Or.inl h
        · exact Or.inr ⟨t, by simp [ht], hta, htp⟩
      · rintro (h | ⟨t, ht, hta, htp⟩)
        · exact Or.inl h
        · rcases List.mem_cons.mp ht with rfl | ht'
          · exact absurd hta (by simp [hadd])
          · exact Or.inr ⟨t, ht', hta, htp⟩

theorem healAdds14_iff (fired : HealSpec → Bool) (s : HealSpec) :
    healAdds14 fired s = true ↔
      fired s = true ∧ s.projectId = "cerano-main" ∧ s.dtsConfig14 ≠ "" := by
  simp [healAdds14, and_assoc]

theorem d1RequiredFailed_pos (policy : String) (outs : List D1SpecOutcome) :
    0 < d1RequiredFailed policy outs ↔
      ∃ o ∈ outs, isRequiredD1 policy o.country = true ∧ o.passed = false := by
  unfold d1RequiredFailed
  rw [List.length_pos_iff_exists_mem]
  constructor
  · rintro ⟨o, ho⟩
    rw [List.mem_filter] at ho
    exact ⟨o, ho.1, by simpa [Bool.and_eq_true, Bool.not_eq_true'] using ho.2⟩
  · rintro ⟨o, ho, h1, h2⟩
    exact ⟨o, List.mem_filter.mpr ⟨ho, by simp [h1, h2]⟩⟩

/-! ## Claim theorems -/

/-- C5: in the table-aggregate (forecast D-1) check, `actuals_sum` is the sum of
absolute values of the three metric sums — sessions=+10, revenue=-10,
transactions=0 gives 20 and PASSes — and with rows present for the target date the
check FAILs with reason `actuals_zero` exactly when `actuals_sum ≤ EPS`: a sum of
0.0 is FAIL, 1e-10 is FAIL, 0.01 is PASS. -/
theorem c5_readiness_epsilon :
    actualsSum 10 (-10) 0 = 20 ∧
    (∀ (rc : Int) (s r t : ℚ), 0 < rc →
      (d1Table13Classify rc s r t = ("FAIL", "actuals_zero") ↔ actualsSum s r t ≤ EPS)) ∧
    (∀ (rc : Int) (s r t : ℚ), 0 < rc →
      (d1Table13Classify rc s r t = ("PASS", "") ↔ EPS < actualsSum s r t)) ∧
    d1Table13Classify 1 10 (-10) 0 = ("PASS", "") ∧
    d1Table13Classify 1 0 0 0 = ("FAIL", "actuals_zero") ∧
    d1Table13Classify 1 (1 / 10000000000) 0 0 = ("FAIL", "actuals_zero") ∧
    d1Table13Classify 1 (1 / 100) 0 0 = ("PASS", "") := by
  refine ⟨by norm_num [actualsSum], ?_, ?_, ?_, ?_, ?_, ?_⟩
  · intro rc s r t hrc
    unfold d1Table13Classify
    rw [if_neg (by omega)]
    constructor
    · intro h
      by_contra hle
      rw [if_neg hle] at h
      simp at h
    · intro h
      rw [if_pos h]
  · intro rc s r t hrc
    unfold d1Table13Classify
    rw [if_neg (by omega)]
    constructor
    · intro h
      by_contra hle
      rw [not_lt] at hle
      rw [if_pos hle] at h
      simp at h
    · intro h
      rw [if_neg (not_le.mpr h)]
  · unfold d1Table13Classify
    rw [if_neg (by omega), if_neg (by norm_num [actualsSum, EPS])]
  · unfold d1Table13Classify
    rw [if_neg (by omega), if_pos (by norm_num [actualsSum, EPS])]
  · unfold d1Table13Classify
    refine (if_neg (by omega)).trans (if_pos ?_)
    simp only [actualsSum, abs_zero, add_zero]
    rw [abs_of_nonneg (by norm_num)]
    norm_num [EPS]
  · unfold d1Table13Classify
    refine (if_neg (by omega)).trans (if_neg ?_)
    simp only [actualsSum, abs_zero, add_zero]
    rw [abs_of_nonneg (by norm_num)]
    norm_num [EPS]

/-- Witness for C5 at rows=1, all metric sums zero. -/
theorem c5_witness :
    d1Table13Classify 1 0 0 0 = ("FAIL", "actuals_zero") ↔ actualsSum 0 0 0 ≤ EPS :=
  c5_readiness_epsilon.2.1 1 0 0 0 (by norm_num)

/-- C9 (amended): the fb cost-readiness guardrail surfaces only the exception
class name on storage access errors — its result is invariant under the error
message — but the table-freshness guardrail appends the message after the class
name (see `c9_counterexample`). -/
theorem c9_error_redaction_fb :
    (∀ (e : GErr) (dl : Nat → Except String CsvDoc) (d : String) (a : Int),
        (runObjectCheck ⟨.error e, dl⟩ d a).reason = e.className) ∧
    (∀ (e₁ e₂ : GErr) (dl : Nat → Except String CsvDoc) (d : String) (a : Int),
        e₁.className = e₂.className →
          runObjectCheck ⟨.error e₁, dl⟩ d a = runObjectCheck ⟨.error e₂, dl⟩ d a) := by
  constructor
  · intro e dl d a
    simp [runObjectCheck]
  · intro e₁ e₂ dl d a h
    simp [runObjectCheck, h]

/-- Witness for C9's amended theorem: a Forbidden error with a secret message
surfaces only the class name. -/
theorem c9_witness :
    (runObjectCheck ⟨.error (.forbidden "topsecret"), fun _ => .error "X"⟩ "d" 0).reason =
      (GErr.forbidden "topsecret").className :=
  c9_error_redaction_fb.1 (.forbidden "topsecret") (fun _ => .error "X") "d" 0

/-- Counterexample for C9 as stated: in the table-freshness guardrail two runs
that differ only in the access error's message text produce different report
reasons. -/
theorem c9_counterexample :
    runFreshnessSpec (.error (.forbidden "messageA")) "p" (fun _ => false) 0 0 ≠
      runFreshnessSpec (.error (.forbidden "messageB")) "p" (fun _ => false) 0 0 := by
  simp [runFreshnessSpec, GErr.className, GErr.message]

/-- C7: within one self-heal run, the 14_* downstream trigger invocations contain
each `(project, trigger-config)` pair at most once (the list is duplicate-free),
and a pair is invoked exactly when some spec reached the FIXED branch for project
`cerano-main` with that nonempty config — de-duplication by config identity, not
by spec. -/
theorem c7_trigger_dedup (specs : List HealSpec) (fired : HealSpec → Bool) :
    (trigger14Invocations specs fired).Nodup ∧
    ∀ p : String × String,
      p ∈ trigger14Invocations specs fired ↔
        ∃ s ∈ specs, fired s = true ∧ s.projectId = "cerano-main" ∧
          s.dtsConfig14 ≠ "" ∧ p = (s.projectId, s.dtsConfig14) := by
  constructor
  · exact ((List.perm_insertionSort pairLE _).nodup_iff).mpr
      (trigger14_fold_nodup fired specs [] (by simp))
  · intro p
    unfold trigger14Invocations trigger14Set
    rw [(List.perm_insertionSort pairLE _).mem_iff, trigger14_fold_mem]
    simp only [List.not_mem_nil, false_or]
    constructor
    · rintro ⟨s, hs, hadd, hp⟩
      rcases (healAdds14_iff fired s).mp hadd with ⟨h1, h2, h3⟩
      exact ⟨s, hs, h1, h2, h3, hp⟩
    · rintro ⟨s, hs, h1, h2, h3, hp⟩
      exact ⟨s, hs, (healAdds14_iff fired s).mpr ⟨h1, h2, h3⟩, hp⟩

/-- Witness for C7: two specs referencing the same `cerano-main` config produce a
duplicate-free invocation list. -/
theorem c7_witness :
    (trigger14Invocations [⟨"cerano-main", "cfg"⟩, ⟨"cerano-main", "cfg"⟩]
      (fun _ => true)).Nodup :=
  (c7_trigger_dedup [⟨"cerano-main", "cfg"⟩, ⟨"cerano-main", "cfg"⟩] (fun _ => true)).1

/-- Let-free unfolding of `inferSlotAuto`, for case analysis. -/
theorem inferSlotAuto_eq (n : Nat) (o : Int) (g : String) :
    inferSlotAuto n o g =
      if stripChars g.toList ≠ [] then
        if (splitWs (stripChars g.toList)).length < 2 then "noop"
        else
          match pyInt (String.mk ((splitWs (stripChars g.toList)).getD 0 [])),
              pyInt (String.mk ((splitWs (stripChars g.toList)).getD 1 [])) with
          | some utcMinute, some utcHour =>
            if utcMinute ≠ 15 then "noop"
            else if 9 ≤ utcHour + o ∧ utcHour + o ≤ 16 then slotName (utcHour + o) else "noop"
          | _, _ => "noop"
      else if 9 ≤ n ∧ n ≤ 16 then slotName n else "noop" := rfl

/-- C6: slot inference is total and deterministic (it is a function) and every
output is either `noop` or a named slot for a local hour in the 09-16 window;
each unrecognized-schedule condition — too few fields, a non-numeric field, a
minute other than 15, a derived local hour outside 09-16 — yields `noop`; and an
auto-mode run whose slot is `noop` exits 0 with only the minimal NOOP summary. -/
theorem c6_slot_inference_safety :
    (∀ (n : Nat) (o : Int) (g : String),
        inferSlotAuto n o g = "noop" ∨
          ∃ h : Int, 9 ≤ h ∧ h ≤ 16 ∧ inferSlotAuto n o g = slotName h) ∧
    (∀ (n : Nat) (o : Int) (g : String), stripChars g.toList ≠ [] →
        (splitWs (stripChars g.toList)).length < 2 → inferSlotAuto n o g = "noop") ∧
    (∀ (n : Nat) (o : Int) (g : String), stripChars g.toList ≠ [] →
        (pyInt (String.mk ((splitWs (stripChars g.toList)).getD 0 [])) = none ∨
          pyInt (String.mk ((splitWs (stripChars g.toList)).getD 1 [])) = none) →
        inferSlotAuto n o g = "noop") ∧
    (∀ (n : Nat) (o : Int) (g : String) (m : Int), stripChars g.toList ≠ [] →
        pyInt (String.mk ((splitWs (stripChars g.toList)).getD 0 [])) = some m → m ≠ 15 →
        inferSlotAuto n o g = "noop") ∧
    (∀ (n : Nat) (o : Int) (g : String) (u : Int), stripChars g.toList ≠ [] →
        pyInt (String.mk ((splitWs (stripChars g.toList)).getD 0 [])) = some 15 →
        pyInt (String.mk ((splitWs (stripChars g.toList)).getD 1 [])) = some u →
        ¬(9 ≤ u + o ∧ u + o ≤ 16) → inferSlotAuto n o g = "noop") ∧
    (∀ (n : Nat) (o : Int) (g : String) (env : D1Env),
        inferSlotAuto n o g = "noop" → d1Run "auto" n o g env = .ok (0, "NOOP")) := by
  refine ⟨?_, ?_, ?_, ?_, ?_, ?_⟩
  · intro n o g
    rw [inferSlotAuto_eq]
    by_cases hgs : stripChars g.toList ≠ []
    · rw [if_pos hgs]
      by_cases hlen : (splitWs (stripChars g.toList)).length < 2
      · rw [if_pos hlen]; exact Or.inl rfl
      · rw [if_neg hlen]
        cases hp0 : pyInt (String.mk ((splitWs (stripChars g.toList)).getD 0 [])) with
        | none => exact Or.inl rfl
        | some m =>
          cases hp1 : pyInt (String.mk ((splitWs (stripChars g.toList)).getD 1 [])) with
          | none => exact Or.inl rfl
          | some u =>
            dsimp only
            by_cases hm : m ≠ 15
            · rw [if_pos hm]; exact Or.inl rfl
            · rw [if_neg hm]
              by_cases hw : 9 ≤ u + o ∧ u + o ≤ 16
              · rw [if_pos hw]; exact Or.inr ⟨u + o, hw.1, hw.2, rfl⟩
              · rw [if_neg hw]; exact Or.inl rfl
    · rw [if_neg hgs]
      by_cases hw : 9 ≤ n ∧ n ≤ 16
      · rw [if_pos hw]
        exact Or.inr ⟨(n : Int), by exact_mod_cast hw.1, by exact_mod_cast hw.2, rfl⟩
      · rw [if_neg hw]; exact Or.inl rfl
  · intro n o g hne hlen
    rw [inferSlotAuto_eq, if_pos hne, if_pos hlen]
  · intro n o g hne hor
    rw [inferSlotAuto_eq, if_pos hne]
    by_cases hlen : (splitWs (stripChars g.toList)).length < 2
    · rw [if_pos hlen]
    · rw [if_neg hlen]
      rcases hor with h0 | h1
      · rw [h0]
      · rw [h1]
        cases pyInt (String.mk ((splitWs (stripChars g.toList)).getD 0 [])) <;> rfl
  · intro n o g m hne h0 hm15
    rw [inferSlotAuto_eq, if_pos hne]
    by_cases hlen : (splitWs (stripChars g.toList)).length < 2
    · rw [if_pos hlen]
    · rw [if_neg hlen, h0]
      cases pyInt (String.mk ((splitWs (stripChars g.toList)).getD 1 [])) with
      | none => rfl
      | some u => dsimp only; rw [if_pos hm15]
  · intro n o g u hne h0 h1 hwin
    rw [inferSlotAuto_eq, if_pos hne]
    by_cases hlen : (splitWs (stripChars g.toList)).length < 2
    · rw [if_pos hlen]
    · rw [if_neg hlen, h0, h1]
      dsimp only
      rw [if_neg (by simp), if_neg hwin]
  · intro n o g env hnoop
    unfold d1Run
    rw [if_neg (by decide), if_pos rfl, if_pos hnoop]

/-- Witness for C6: minute 30 is not an execution-window minute, so the slot is
`noop`. -/
theorem c6_witness : inferSlotAuto 10 2 "30 7 * * *" = "noop" :=
  c6_slot_inference_safety.2.2.2.1 10 2 "30 7 * * *" 30 (by decide) (by decide) (by decide)

/-- C2 (amended): the forecast D-1 readiness exit code is 0 when all
required-scope checks pass or the run is a scheduled no-op, and 2 when a required
check fails — but an unexpected/unhandled error also exits 2 (not 1): `main`
catches the exception, writes a best-effort FAIL summary and returns 2. A FAIL in
an optional-scope spec never makes the summary status FAIL; a FAIL in a
required-scope spec always does. -/
theorem c2_exit_codes :
    (∀ (n : Nat) (o : Int) (g : String) (outs : List D1SpecOutcome),
        d1Main "manual" n o g ⟨none, outs⟩ =
          if d1RequiredFailed "all" outs = 0 then 0 else 2) ∧
    (∀ (n : Nat) (o : Int) (g : String) (env : D1Env),
        inferSlotAuto n o g = "noop" → d1Main "auto" n o g env = 0) ∧
    (∀ (n : Nat) (o : Int) (g : String) (outs : List D1SpecOutcome),
        inferSlotAuto n o g ≠ "noop" →
          d1Main "auto" n o g ⟨none, outs⟩ =
            if d1RequiredFailed "all" outs = 0 then 0 else 2) ∧
    (∀ (n : Nat) (o : Int) (g : String) (e : String) (outs : List D1SpecOutcome),
        d1Main "manual" n o g ⟨some e, outs⟩ = 2) ∧
    (∀ (n : Nat) (o : Int) (g : String) (e : String) (outs : List D1SpecOutcome),
        inferSlotAuto n o g ≠ "noop" → d1Main "auto" n o g ⟨some e, outs⟩ = 2) ∧
    (∀ (policy : String) (outs : List D1SpecOutcome),
        d1SummaryStatus policy outs = "FAIL" ↔
          ∃ res ∈ outs, isRequiredD1 policy res.country = true ∧ res.passed = false) := by
  refine ⟨?_, ?_, ?_, ?_, ?_, ?_⟩
  · intro n o g outs
    unfold d1Main d1Run
    rw [if_pos rfl]
  · intro n o g env hnoop
    unfold d1Main d1Run
    rw [if_neg (by decide), if_pos rfl, if_pos hnoop]
  · intro n o g outs hnoop
    unfold d1Main d1Run
    rw [if_neg (by decide), if_pos rfl, if_neg hnoop]
  · intro n o g e outs
    unfold d1Main d1Run
    rw [if_pos rfl]
  · intro n o g e outs hnoop
    unfold d1Main d1Run
    rw [if_neg (by decide), if_pos rfl, if_neg hnoop]
  · intro policy outs
    unfold d1SummaryStatus
    rw [← d1RequiredFailed_pos]
    constructor
    · intro h
      by_contra hq
      rw [if_neg hq] at h
      simp at h
    · intro h
      rw [if_pos h]

/-- Counterexample for C2 as stated: an unexpected error escaping `run` (here a
config-load failure on an auto run inside the execution window) exits with code
2, not 1. -/
theorem c2_counterexample :
    d1Main "auto" 10 2 "" ⟨some "boom", []⟩ = 2 ∧
      d1Main "auto" 10 2 "" ⟨some "boom", []⟩ ≠ 1 := by
  constructor
  · rfl
  · intro h
    simpa using h.symm.trans (by rfl : d1Main "auto" 10 2 "" ⟨some "boom", []⟩ = 2)

/-- Witness for C2's amended theorem: a noop auto run exits 0. -/
theorem c2_witness : d1Main "auto" 8 0 "" ⟨none, []⟩ = 0 :=
  c2_exit_codes.2.1 8 0 "" ⟨none, []⟩ (by decide)

/-- C4: in the table-freshness check, a spec whose pattern matches zero tables
(after ignore-regex exclusion) yields exactly one FAIL row with reason
`no_tables_matched`; every table matching the pattern and not ignored gets a
result row; and a fetched table is classified date mismatch first (when its local
modification date differs from the target date), then `late_after_sla` (when its
local modification time is strictly after the SLA instant), else PASS. -/
theorem c4_table_freshness (tables : List TableEntry) (pattern : String)
    (isIgnored : String → Bool) (dateLocal slaTod : Int) :
    (tables.filter (fun t => likeMatch pattern t.tableId && !(isIgnored t.tableId)) = [] →
        runFreshnessSpec (.ok tables) pattern isIgnored dateLocal slaTod =
          [⟨"", "FAIL", "no_tables_matched"⟩]) ∧
    (∀ t ∈ tables, likeMatch pattern t.tableId = true → isIgnored t.tableId = false →
        freshRowOfFetch dateLocal slaTod t ∈
          runFreshnessSpec (.ok tables) pattern isIgnored dateLocal slaTod) ∧
    (∀ (t : TableEntry) (lm : LocalDT), t.fetch = .ok lm →
        (lm.day ≠ dateLocal →
            freshRowOfFetch dateLocal slaTod t =
              ⟨t.tableId, "FAIL", "date_mismatch (got " ++ toString lm.day ++ ")"⟩) ∧
        (lm.day = dateLocal → localLT ⟨dateLocal, slaTod⟩ lm →
            freshRowOfFetch dateLocal slaTod t = ⟨t.tableId, "FAIL", "late_after_sla"⟩) ∧
        (lm.day = dateLocal → ¬ localLT ⟨dateLocal, slaTod⟩ lm →
            freshRowOfFetch dateLocal slaTod t = ⟨t.tableId, "PASS", ""⟩)) := by
  refine ⟨?_, ?_, ?_⟩
  · intro h
    simp [runFreshnessSpec, h]
  · intro t ht hl hi
    have hmem : t ∈ tables.filter
        (fun t => likeMatch pattern t.tableId && !(isIgnored t.tableId)) :=
      List.mem_filter.mpr ⟨ht, by simp [hl, hi]⟩
    unfold runFreshnessSpec
    dsimp only
    rw [if_neg (by simp only [List.isEmpty_iff]; exact List.ne_nil_of_mem hmem)]
    exact List.mem_map.mpr ⟨t, hmem, rfl⟩
  · intro t lm hfetch
    refine ⟨?_, ?_, ?_⟩
    · intro hday
      unfold freshRowOfFetch
      rw [hfetch]
      unfold classifyFreshness
      dsimp only
      rw [if_pos hday]
    · intro hday hlate
      unfold freshRowOfFetch
      rw [hfetch]
      unfold classifyFreshness
      dsimp only
      rw [if_neg (by simp [hday]), if_pos hlate]
    · intro hday hontime
      unfold freshRowOfFetch
      rw [hfetch]
      unfold classifyFreshness
      dsimp only
      rw [if_neg (by simp [hday]), if_neg hontime]

/-- Witness for C4: a dataset with one matching on-time table, one ignored test
table, and a stale table. -/
theorem c4_witness :
    freshRowOfFetch 100 400 ⟨"t1", .ok ⟨100, 500⟩⟩ = ⟨"t1", "FAIL", "late_after_sla"⟩ ∧
      runFreshnessSpec (.ok []) "t%" (fun _ => false) 100 400 =
        [⟨"", "FAIL", "no_tables_matched"⟩] := by
  constructor
  · exact ((c4_table_freshness [] "t%" (fun _ => false) 100 400).2.2
      ⟨"t1", .ok ⟨100, 500⟩⟩ ⟨100, 500⟩ rfl).2.1 rfl (by simp [localLT])
  · exact (c4_table_freshness [] "t%" (fun _ => false) 100 400).1 rfl

theorem spendContribution_eq_zero {raw : String} (h : pyFloat raw = none) :
    spendContribution raw = 0 := by
  unfold spendContribution
  split
  · rfl
  · rw [h]

theorem sumSpend_fold (d : String) (rows : List CsvRow) :
    ∀ acc : Nat × ℚ,
      (rows.foldl (sumSpendStep d) acc).1 =
          acc.1 + rows.countP (fun r => pyStrip (r.dateStart.getD "") == d) ∧
      ((∀ r ∈ rows, pyStrip (r.dateStart.getD "") = d →
            pyFloat (pyStrip (r.spend.getD "")) = none) →
        (rows.foldl (sumSpendStep d) acc).2 = acc.2) := by
  induction rows with
  | nil => intro acc; simp
  | cons r rest ih =>
    intro acc
    simp only [List.foldl_cons, List.countP_cons]
    by_cases hm : pyStrip (r.dateStart.getD "") = d
    · have hstep : sumSpendStep d acc r =
          (acc.1 + 1, acc.2 + spendContribution (pyStrip (r.spend.getD ""))) := by
        unfold sumSpendStep
        rw [if_neg (by simp [hm])]
      constructor
      · rw [hstep, (ih _).1]
        simp [hm]
        omega
      · intro hall
        have hz : spendContribution (pyStrip (r.spend.getD "")) = 0 :=
          spendContribution_eq_zero (hall r (by simp) hm)
        rw [hstep, (ih _).2 (fun x hx => hall x (by simp [hx]))]
        rw [hz, add_zero]
    · have hstep : sumSpendStep d acc r = acc := by
        unfold sumSpendStep
        rw [if_pos hm]
      constructor
      · rw [hstep, (ih _).1]
        simp [hm]
      · intro hall
        rw [hstep, (ih _).2 (fun x hx => hall x (by simp [hx]))]

/-- C10: the CSV spend summation never fails on an unparseable spend value — with
the required columns present it always returns a row count equal to the number of
rows matching the target date, an unparseable spend contributing 0.0 — and an
as-of generation whose matching rows all carry unparseable spend values makes the
object check FAIL with reason `sum_spend_not_positive`, not a download/parse
error. -/
theorem c10_unparseable_spend :
    (∀ (doc : CsvDoc) (d : String),
        doc.fieldnames ≠ [] → "date_start" ∈ doc.fieldnames → "spend" ∈ doc.fieldnames →
        csvSumSpendForDate doc d =
          .ok (doc.rows.countP (fun r => pyStrip (r.dateStart.getD "") == d),
            (sumSpendRows d doc.rows).2)) ∧
    (∀ (doc : CsvDoc) (d : String),
        doc.fieldnames ≠ [] → "date_start" ∈ doc.fieldnames → "spend" ∈ doc.fieldnames →
        (∀ r ∈ doc.rows, pyStrip (r.dateStart.getD "") = d →
            pyFloat (pyStrip (r.spend.getD "")) = none) →
        csvSumSpendForDate doc d =
          .ok (doc.rows.countP (fun r => pyStrip (r.dateStart.getD "") == d), 0)) ∧
    (∀ (env : ObjectEnv) (blobs : List Blob) (b cur : Blob) (doc : CsvDoc) (d : String)
        (a : Int),
        env.listBlobs = .ok blobs →
        pickGenerationAsof blobs a = (some b, some cur) →
        env.download b.generation = .ok doc →
        doc.fieldnames ≠ [] → "date_start" ∈ doc.fieldnames → "spend" ∈ doc.fieldnames →
        (∀ r ∈ doc.rows, pyStrip (r.dateStart.getD "") = d →
            pyFloat (pyStrip (r.spend.getD "")) = none) →
        runObjectCheck env d a =
          ⟨"FAIL", "sum_spend_not_positive",
            doc.rows.countP (fun r => pyStrip (r.dateStart.getD "") == d), 0,
            some b.generation, some cur.generation⟩) := by
  have hbase : ∀ (doc : CsvDoc) (d : String),
      doc.fieldnames ≠ [] → "date_start" ∈ doc.fieldnames → "spend" ∈ doc.fieldnames →
      csvSumSpendForDate doc d =
        .ok (doc.rows.countP (fun r => pyStrip (r.dateStart.getD "") == d),
          (sumSpendRows d doc.rows).2) := by
    intro doc d hfn hds hsp
    unfold csvSumSpendForDate
    rw [if_neg (by simp only [List.isEmpty_iff]; exact hfn),
      if_neg (by simp [hds, hsp]), sumSpendRows]
    have h1 := (sumSpend_fold d doc.rows (0, 0)).1
    simp only [Nat.zero_add] at h1
    rw [show doc.rows.foldl (sumSpendStep d) (0, 0) =
        ((doc.rows.foldl (sumSpendStep d) (0, 0)).1,
          (doc.rows.foldl (sumSpendStep d) (0, 0)).2) from rfl, h1]
  have hzero : ∀ (doc : CsvDoc) (d : String),
      doc.fieldnames ≠ [] → "date_start" ∈ doc.fieldnames → "spend" ∈ doc.fieldnames →
      (∀ r ∈ doc.rows, pyStrip (r.dateStart.getD "") = d →
          pyFloat (pyStrip (r.spend.getD "")) = none) →
      csvSumSpendForDate doc d =
        .ok (doc.rows.countP (fun r => pyStrip (r.dateStart.getD "") == d), 0) := by
    intro doc d hfn hds hsp hall
    rw [hbase doc d hfn hds hsp]
    have h2 := (sumSpend_fold d doc.rows (0, 0)).2 hall
    unfold sumSpendRows
    rw [h2]
  refine ⟨hbase, hzero, ?_⟩
  intro env blobs b cur doc d a hls hpick hdl hfn hds hsp hall
  unfold runObjectCheck
  rw [hls]
  dsimp only
  rw [hpick]
  dsimp only
  rw [show (env.download b.generation).bind (fun doc => csvSumSpendForDate doc d) =
      .ok (doc.rows.countP (fun r => pyStrip (r.dateStart.getD "") == d), (0 : ℚ)) by
    rw [hdl]
    exact hzero doc d hfn hds hsp hall]
  dsimp only
  rw [if_neg (by norm_num)]

/-- Witness for C10: one matching row whose spend cell is the unparseable string
`abc` is counted, contributes zero, and the document sums without error. -/
theorem c10_witness :
    csvSumSpendForDate ⟨["date_start", "spend"], [⟨some "2024-01-14", some "abc"⟩]⟩
        "2024-01-14" =
      .ok (([⟨some "2024-01-14", some "abc"⟩] : List CsvRow).countP
          (fun r => pyStrip (r.dateStart.getD "") == "2024-01-14"), 0) :=
  c10_unparseable_spend.2.1 ⟨["date_start", "spend"], [⟨some "2024-01-14", some "abc"⟩]⟩
    "2024-01-14" (by decide) (by decide) (by decide)
    (by intro r hr hm; simp only [List.mem_singleton] at hr; subst hr; decide)

/-- C3: the object-content check PASSes iff the listing succeeded, an as-of
generation existed, its download+parse succeeded, and the spend sum over rows of
the as-of generation matching the target date is strictly positive; FAIL reasons
are assigned in priority order — storage access error (class name only) first,
then `no_generation_before_sla`, then `download_or_parse_error`, then
`sum_spend_not_positive`. -/
theorem c3_object_check_priority (env : ObjectEnv) (d : String) (a : Int) :
    ((runObjectCheck env d a).status = "PASS" ↔
      ∃ (blobs : List Blob) (b cur : Blob) (rc : Nat) (s : ℚ),
        env.listBlobs = .ok blobs ∧
        pickGenerationAsof blobs a = (some b, some cur) ∧
        (env.download b.generation).bind (fun doc => csvSumSpendForDate doc d) =
          .ok (rc, s) ∧
        0 < s) ∧
    (∀ e, env.listBlobs = .error e →
        runObjectCheck env d a = ⟨"FAIL", e.className, 0, 0, none, none⟩) ∧
    (∀ blobs cur, env.listBlobs = .ok blobs →
        pickGenerationAsof blobs a = (none, some cur) →
        runObjectCheck env d a =
          ⟨"FAIL", "no_generation_before_sla", 0, 0, none, some cur.generation⟩) ∧
    (∀ blobs b cur cls, env.listBlobs = .ok blobs →
        pickGenerationAsof blobs a = (some b, some cur) →
        (env.download b.generation).bind (fun doc => csvSumSpendForDate doc d) =
          .error cls →
        runObjectCheck env d a =
          ⟨"FAIL", "download_or_parse_error:" ++ cls, 0, 0,
            some b.generation, some cur.generation⟩) ∧
    (∀ blobs b cur rc s, env.listBlobs = .ok blobs →
        pickGenerationAsof blobs a = (some b, some cur) →
        (env.download b.generation).bind (fun doc => csvSumSpendForDate doc d) =
          .ok (rc, s) →
        s ≤ 0 →
        runObjectCheck env d a =
          ⟨"FAIL", "sum_spend_not_positive", rc, s,
            some b.generation, some cur.generation⟩) := by
  refine ⟨?_, ?_, ?_, ?_, ?_⟩
  · constructor
    · intro h
      rcases hls : env.listBlobs with e | blobs
      · unfold runObjectCheck at h
        rw [hls] at h
        dsimp only at h
        exact absurd h (by decide)
      · rcases hpick : pickGenerationAsof blobs a with ⟨aso, cu⟩
        cases cu with
        | none =>
          unfold runObjectCheck at h
          rw [hls] at h
          dsimp only at h
          rw [hpick] at h
          cases aso with
          | none =>
            try dsimp only at h
            exact absurd h (by decide)
          | some x =>
            try dsimp only at h
            exact absurd h (by decide)
        | some cur =>
          cases aso with
          | none =>
            unfold runObjectCheck at h
            rw [hls] at h
            dsimp only at h
            rw [hpick] at h
            try dsimp only at h
            exact absurd h (by decide)
          | some b =>
            rcases hdl : (env.download b.generation).bind
                (fun doc => csvSumSpendForDate doc d) with cls | pr
            · unfold runObjectCheck at h
              rw [hls] at h
              dsimp only at h
              rw [hpick] at h
              dsimp only at h
              rw [hdl] at h
              try dsimp only at h
              exact absurd h (by decide)
            · obtain ⟨rc, s⟩ := pr
              by_cases hs : 0 < s
              · exact ⟨blobs, b, cur, rc, s, rfl, hpick, hdl, hs⟩
              · unfold runObjectCheck at h
                rw [hls] at h
                dsimp only at h
                rw [hpick] at h
                dsimp only at h
                rw [hdl] at h
                dsimp only at h
                rw [if_neg hs] at h
                try dsimp only at h
                exact absurd h (by decide)
    · rintro ⟨blobs, b, cur, rc, s, hls, hpick, hdl, hs⟩
      unfold runObjectCheck
      rw [hls]
      dsimp only
      rw [hpick]
      dsimp only
      rw [hdl]
      dsimp only
      rw [if_pos hs]
  · intro e hls
    unfold runObjectCheck
    rw [hls]
  · intro blobs cur hls hpick
    unfold runObjectCheck
    rw [hls]
    dsimp only
    rw [hpick]
  · intro blobs b cur cls hls hpick hdl
    unfold runObjectCheck
    rw [hls]
    dsimp only
    rw [hpick]
    dsimp only
    rw [hdl]
  · intro blobs b cur rc s hls hpick hdl hs
    unfold runObjectCheck
    rw [hls]
    dsimp only
    rw [hpick]
    dsimp only
    rw [hdl]
    dsimp only
    rw [if_neg (not_lt.mpr hs)]

/-- Witness for C3: a NotFound listing error dominates everything else and is
reported by class name. -/
theorem c3_witness :
    runObjectCheck ⟨.error (.notFound "gone"), fun _ => .error "X"⟩ "d" 0 =
      ⟨"FAIL", (GErr.notFound "gone").className, 0, 0, none, none⟩ :=
  (c3_object_check_priority ⟨.error (.notFound "gone"), fun _ => .error "X"⟩ "d" 0).2.1
    (.notFound "gone") rfl

theorem mem_of_getLastOpt {α : Type} : ∀ {l : List α} {m : α}, l.getLast? = some m → m ∈ l := by
  intro l
  induction l with
  | nil => intro m h; cases h
  | cons x xs ih =>
    intro m h
    cases xs with
    | nil =>
      cases h
      exact List.mem_singleton_self x
    | cons y ys =>
      rw [List.getLast?_cons_cons] at h
      exact List.mem_cons_of_mem x (ih h)

theorem sorted_getLast_le :
    ∀ {l : List Blob}, List.Sorted blobLE l → ∀ {m : Blob}, l.getLast? = some m →
      ∀ b ∈ l, blobKey b ≤ blobKey m := by
  intro l
  induction l with
  | nil => intro _ m h; cases h
  | cons x xs ih =>
    intro hs m hm b hb
    rw [List.sorted_cons] at hs
    cases xs with
    | nil =>
      cases hm
      rcases List.mem_singleton.mp hb with rfl
      exact le_refl _
    | cons y ys =>
      rw [List.getLast?_cons_cons] at hm
      rcases List.mem_cons.mp hb with rfl | hb'
      · exact hs.1 m (mem_of_getLastOpt hm)
      · exact ih hs.2 hm b hb'

theorem pickGenerationAsof_ne {blobs : List Blob} (hne : blobs ≠ []) (a : Int) :
    pickGenerationAsof blobs a =
      (((List.insertionSort blobLE blobs).filter (fun b => blobKey b ≤ a)).getLast?,
        (List.insertionSort blobLE blobs).getLast?) := by
  cases blobs with
  | nil => exact absurd rfl hne
  | cons x xs => rfl

theorem insertionSort_ne_nil {blobs : List Blob} (hne : blobs ≠ []) :
    List.insertionSort blobLE blobs ≠ [] := by
  intro h
  apply hne
  have hperm := List.perm_insertionSort blobLE blobs
  rw [h] at hperm
  exact (hperm.symm.eq_nil)

theorem pick_current_spec (blobs : List Blob) (a : Int) (hne : blobs ≠ []) :
    ∃ c, (pickGenerationAsof blobs a).2 = some c ∧ c ∈ blobs ∧
      ∀ b ∈ blobs, blobKey b ≤ blobKey c := by
  have hperm := List.perm_insertionSort blobLE blobs
  have hsorted := List.sorted_insertionSort blobLE blobs
  obtain ⟨c, hc⟩ : ∃ c, (List.insertionSort blobLE blobs).getLast? = some c := by
    cases h : (List.insertionSort blobLE blobs).getLast? with
    | some c => exact ⟨c, rfl⟩
    | none => exact absurd (List.getLast?_eq_none.mp h) (insertionSort_ne_nil hne)
  refine ⟨c, ?_, hperm.mem_iff.mp (mem_of_getLastOpt hc), ?_⟩
  · rw [pickGenerationAsof_ne hne a, hc]
  · intro b hb
    exact sorted_getLast_le hsorted hc b (hperm.mem_iff.mpr hb)

theorem pick_asof_none (blobs : List Blob) (a : Int)
    (hnone : ∀ b ∈ blobs, ¬ blobKey b ≤ a) :
    (pickGenerationAsof blobs a).1 = none := by
  cases hb : blobs with
  | nil => rfl
  | cons x xs =>
    rw [← hb, pickGenerationAsof_ne (hb ▸ List.cons_ne_nil x xs) a]
    have hfl : (List.insertionSort blobLE blobs).filter (fun b => blobKey b ≤ a) = [] := by
      rw [List.filter_eq_nil]
      intro b hbmem
      simpa using hnone b ((List.perm_insertionSort blobLE blobs).mem_iff.mp hbmem)
    rw [hfl]
    rfl

theorem pick_asof_spec (blobs : List Blob) (a : Int) (b₀ : Blob)
    (hb₀ : b₀ ∈ blobs) (hle : blobKey b₀ ≤ a) :
    ∃ x, (pickGenerationAsof blobs a).1 = some x ∧ x ∈ blobs ∧ blobKey x ≤ a ∧
      ∀ b ∈ blobs, blobKey b ≤ a → blobKey b ≤ blobKey x := by
  have hne : blobs ≠ [] := List.ne_nil_of_mem hb₀
  have hperm := List.perm_insertionSort blobLE blobs
  have hsorted := List.sorted_insertionSort blobLE blobs
  have hsorted_f : List.Sorted blobLE
      ((List.insertionSort blobLE blobs).filter (fun b => blobKey b ≤ a)) :=
    List.Pairwise.filter _ hsorted
  have hb₀f : b₀ ∈ (List.insertionSort blobLE blobs).filter (fun b => blobKey b ≤ a) :=
    List.mem_filter.mpr ⟨hperm.mem_iff.mpr hb₀, by simpa using hle⟩
  obtain ⟨x, hx⟩ : ∃ x,
      ((List.insertionSort blobLE blobs).filter (fun b => blobKey b ≤ a)).getLast? = some x := by
    cases h : ((List.insertionSort blobLE blobs).filter (fun b => blobKey b ≤ a)).getLast? with
    | some c => exact ⟨c, rfl⟩
    | none => exact absurd (List.getLast?_eq_none.mp h) (List.ne_nil_of_mem hb₀f)
  have hxmem := List.mem_filter.mp (mem_of_getLastOpt hx)
  refine ⟨x, ?_, hperm.mem_iff.mp hxmem.1, by simpa using hxmem.2, ?_⟩
  · rw [pickGenerationAsof_ne hne a, hx]
  · intro b hb hble
    exact sorted_getLast_le hsorted_f hx b
      (List.mem_filter.mpr ⟨hperm.mem_iff.mpr hb, by simpa using hble⟩)

theorem blobKey_inj_of_pairwise {blobs : List Blob}
    (hdist : blobs.Pairwise fun x y => blobKey x ≠ blobKey y)
    {x y : Blob} (hx : x ∈ blobs) (hy : y ∈ blobs) (hkey : blobKey x = blobKey y) :
    x = y := by
  by_contra hne
  exact List.Pairwise.forall (fun _ _ h => h.symm) hdist hx hy hne hkey

theorem pick_perm_invariant (blobs blobs' : List Blob) (a : Int)
    (hdist : blobs.Pairwise fun x y => blobKey x ≠ blobKey y)
    (hperm : blobs.Perm blobs') :
    pickGenerationAsof blobs' a = pickGenerationAsof blobs a := by
  by_cases hempty : blobs = []
  · subst hempty
    rw [hperm.symm.eq_nil]
  · have hne : blobs ≠ [] := hempty
    have hne' : blobs' ≠ [] := by
      intro h
      exact hne (h ▸ hperm).eq_nil
    obtain ⟨c, hc2, hcmem, hcmax⟩ := pick_current_spec blobs a hne
    obtain ⟨c', hc2', hcmem', hcmax'⟩ := pick_current_spec blobs' a hne'
    have hkey : blobKey c = blobKey c' :=
      le_antisymm (hcmax' c (hperm.mem_iff.mp hcmem)) (hcmax c' (hperm.mem_iff.mpr hcmem'))
    have hcc : c = c' := blobKey_inj_of_pairwise hdist hcmem (hperm.mem_iff.mpr hcmem') hkey
    apply Prod.ext
    · by_cases hex : ∃ b ∈ blobs, blobKey b ≤ a
      · obtain ⟨b₀, hb₀, hb₀le⟩ := hex
        obtain ⟨x, hx1, hxmem, hxle, hxmax⟩ := pick_asof_spec blobs a b₀ hb₀ hb₀le
        obtain ⟨x', hx1', hxmem', hxle', hxmax'⟩ :=
          pick_asof_spec blobs' a b₀ (hperm.mem_iff.mp hb₀) hb₀le
        have hkey2 : blobKey x = blobKey x' :=
          le_antisymm (hxmax' x (hperm.mem_iff.mp hxmem) hxle)
            (hxmax x' (hperm.mem_iff.mpr hxmem') hxle')
        have : x = x' :=
          blobKey_inj_of_pairwise hdist hxmem (hperm.mem_iff.mpr hxmem') hkey2
        rw [hx1', hx1, this]
      · push_neg at hex
        have hex' : ∀ b ∈ blobs, ¬ blobKey b ≤ a := fun b hb => not_le.mpr (hex b hb)
        rw [pick_asof_none blobs' a (fun b hb => hex' b (hperm.mem_iff.mpr hb)),
          pick_asof_none blobs a hex']
    · rw [hc2, hc2', hcc]

/-- C1 (amended): for a non-empty version list with pairwise-distinct creation
keys, the resolver's current reference is a version of maximal creation key, the
as-of reference is one of maximal creation key among those with key ≤ the as-of
instant (absent when none qualifies), and the result is invariant under
permutation of the input; on an empty version list both references are absent and
the evaluator reports `object_not_found`, while with versions present but none at
or before the instant it reports `no_generation_before_sla`, a distinct reason.
(With tied creation keys the returned reference depends on input order — see
`c1_counterexample` — which is what forces the distinctness hypothesis.) -/
theorem c1_generation_resolver (blobs : List Blob) (a : Int)
    (hne : blobs ≠ [])
    (hdist : blobs.Pairwise fun x y => blobKey x ≠ blobKey y) :
    (∃ c, (pickGenerationAsof blobs a).2 = some c ∧ c ∈ blobs ∧
        ∀ b ∈ blobs, blobKey b ≤ blobKey c) ∧
    ((∀ b ∈ blobs, ¬ blobKey b ≤ a) → (pickGenerationAsof blobs a).1 = none) ∧
    (∀ b₀ ∈ blobs, blobKey b₀ ≤ a →
        ∃ x, (pickGenerationAsof blobs a).1 = some x ∧ x ∈ blobs ∧ blobKey x ≤ a ∧
          ∀ b ∈ blobs, blobKey b ≤ a → blobKey b ≤ blobKey x) ∧
    (∀ blobs', blobs.Perm blobs' →
        pickGenerationAsof blobs' a = pickGenerationAsof blobs a) ∧
    (∀ (dl : Nat → Except String CsvDoc) (d : String),
        (runObjectCheck ⟨.ok [], dl⟩ d a).reason = "object_not_found" ∧
        ((∀ b ∈ blobs, ¬ blobKey b ≤ a) →
          (runObjectCheck ⟨.ok blobs, dl⟩ d a).reason = "no_generation_before_sla") ∧
        ("object_not_found" : String) ≠ "no_generation_before_sla") := by
  refine ⟨pick_current_spec blobs a hne, pick_asof_none blobs a, ?_, ?_, ?_⟩
  · intro b₀ hb₀ hle
    exact pick_asof_spec blobs a b₀ hb₀ hle
  · intro blobs' hperm
    exact pick_perm_invariant blobs blobs' a hdist hperm
  · intro dl d
    refine ⟨rfl, ?_, by decide⟩
    intro hnone
    obtain ⟨c, hc2, -, -⟩ := pick_current_spec blobs a hne
    have hpick : pickGenerationAsof blobs a = (none, some c) :=
      Prod.ext (pick_asof_none blobs a hnone) hc2
    unfold runObjectCheck
    dsimp only
    rw [hpick]

/-- Counterexample for C1 as stated: with two versions sharing one creation time,
the current reference returned depends on the input ordering (the stable sort
keeps the later-listed of the tied versions last). -/
theorem c1_counterexample :
    pickGenerationAsof [⟨1, some 5, none⟩, ⟨2, some 5, none⟩] 10 ≠
      pickGenerationAsof [⟨2, some 5, none⟩, ⟨1, some 5, none⟩] 10 ∧
    ([⟨1, some 5, none⟩, ⟨2, some 5, none⟩] : List Blob).Perm
      [⟨2, some 5, none⟩, ⟨1, some 5, none⟩] := by
  constructor
  · decide
  · exact List.Perm.swap _ _ _

/-- Witness for C1: two distinctly-timestamped versions, both after the as-of
instant, leave the as-of reference absent. -/
theorem c1_witness :
    (pickGenerationAsof [⟨1, some 5, none⟩, ⟨2, some 8, none⟩] 3).1 = none :=
  (c1_generation_resolver [⟨1, some 5, none⟩, ⟨2, some 8, none⟩] 3 (by decide)
    (by decide)).2.1 (by decide)

theorem applyBumps_length : ∀ (idxs : List Nat) (out : List Int),
    (applyBumps out idxs).length = out.length := by
  intro idxs
  induction idxs with
  | nil => intro out; rfl
  | cons i is ih =>
    intro out
    unfold applyBumps
    rw [ih, List.length_set]

theorem sum_set_add_one {out : List Int} {i : Nat} (h : i < out.length) :
    (out.set i (out.getD i 0 + 1)).sum = out.sum + 1 := by
  have hdecomp := (List.sum_take_add_sum_drop out i).symm
  rw [List.drop_eq_getElem_cons h, List.sum_cons] at hdecomp
  rw [List.sum_set, if_pos h, List.getD_eq_getElem out 0 h]
  omega

theorem applyBumps_sum : ∀ (idxs : List Nat) (out : List Int),
    (∀ i ∈ idxs, i < out.length) →
    (applyBumps out idxs).sum = out.sum + idxs.length := by
  intro idxs
  induction idxs with
  | nil => intro out _; simp [applyBumps]
  | cons i is ih =>
    intro out hlt
    unfold applyBumps
    rw [ih _ (fun j hj => by rw [List.length_set]; exact hlt j (by simp [hj]))]
    rw [sum_set_add_one (hlt i (by simp))]
    simp
    ring

theorem applyBumps_nonneg : ∀ (idxs : List Nat) (out : List Int),
    (∀ x ∈ out, 0 ≤ x) → ∀ x ∈ applyBumps out idxs, 0 ≤ x := by
  intro idxs
  induction idxs with
  | nil => intro out h; exact h
  | cons i is ih =>
    intro out h
    unfold applyBumps
    apply ih
    intro x hx
    rcases List.mem_or_eq_of_mem_set hx with hx' | rfl
    · exact h x hx'
    · rcases lt_or_le i out.length with hi | hi
      · rw [List.getD_eq_getElem out 0 hi]
        have := h out[i] (List.getElem_mem hi)
        omega
      · rw [List.getD_eq_default out 0 hi]
        omega

theorem sum_map_max_eq_posSum : ∀ (l : List ℚ),
    (l.map (fun w => max 0 w)).sum = lraPosSum l := by
  intro l
  induction l with
  | nil => rfl
  | cons w ws ih =>
    unfold lraPosSum at ih ⊢
    by_cases hw : 0 < w
    · rw [List.map_cons, List.sum_cons, List.filter_cons_of_pos (by simpa using hw),
        List.sum_cons, ih, max_eq_right hw.le]
    · rw [List.map_cons, List.sum_cons, List.filter_cons_of_neg (by simpa using hw),
        ih, max_eq_left (not_lt.mp hw)]
      ring

theorem sum_map_div_const : ∀ (l : List ℚ) (f : ℚ → ℚ) (s : ℚ),
    (l.map (fun w => f w / s)).sum = (l.map f).sum / s := by
  intro l f s
  induction l with
  | nil => simp
  | cons w ws ih =>
    simp only [List.map_cons, List.sum_cons, ih]
    ring

theorem sum_map_mul_const : ∀ (l : List ℚ) (c : ℚ),
    (l.map (fun w => c * w)).sum = c * l.sum := by
  intro l c
  induction l with
  | nil => simp
  | cons w ws ih =>
    simp only [List.map_cons, List.sum_cons, ih]
    ring

theorem sum_map_floor_le : ∀ (l : List ℚ),
    (((l.map (fun x => ⌊x⌋)).sum : Int) : ℚ) ≤ l.sum := by
  intro l
  induction l with
  | nil => simp
  | cons x xs ih =>
    rw [List.map_cons, List.sum_cons, List.sum_cons, Int.cast_add]
    exact add_le_add (Int.floor_le x) ih

theorem lraRaw_sum (total : Int) (weights : List ℚ) (hs : 0 < lraPosSum weights) :
    (lraRaw total weights).sum = total := by
  unfold lraRaw lraWnorm
  rw [sum_map_mul_const, sum_map_div_const, sum_map_max_eq_posSum,
    div_self (ne_of_gt hs), mul_one]

theorem lraRaw_nonneg (total : Int) (weights : List ℚ) (htot : 0 ≤ total)
    (hs : 0 < lraPosSum weights) : ∀ x ∈ lraRaw total weights, 0 ≤ x := by
  intro x hx
  unfold lraRaw lraWnorm at hx
  rw [List.map_map, List.mem_map] at hx
  obtain ⟨w, -, rfl⟩ := hx
  have : (0 : ℚ) ≤ (total : ℚ) := by exact_mod_cast htot
  exact mul_nonneg this (div_nonneg (le_max_left 0 w) hs.le)

theorem lraRem_nonneg (total : Int) (weights : List ℚ)
    (hs : 0 < lraPosSum weights) : 0 ≤ lraRem total weights := by
  unfold lraRem
  have h1 : (((lraFloors total weights).sum : Int) : ℚ) ≤ (total : ℚ) := by
    unfold lraFloors
    calc (((lraRaw total weights).map (fun x => ⌊x⌋)).sum : ℚ)
        ≤ (lraRaw total weights).sum := sum_map_floor_le _
      _ = total := lraRaw_sum total weights hs
  have : (lraFloors total weights).sum ≤ total := by exact_mod_cast h1
  omega

theorem lraFloors_length (total : Int) (weights : List ℚ) :
    (lraFloors total weights).length = weights.length := by
  unfold lraFloors lraRaw lraWnorm
  simp

theorem lraFloors_nonneg (total : Int) (weights : List ℚ) (htot : 0 ≤ total)
    (hs : 0 < lraPosSum weights) : ∀ x ∈ lraFloors total weights, 0 ≤ x := by
  intro x hx
  unfold lraFloors at hx
  rw [List.mem_map] at hx
  obtain ⟨q, hq, rfl⟩ := hx
  exact Int.floor_nonneg.mpr (lraRaw_nonneg total weights htot hs q hq)

theorem lraFracs_length (total : Int) (weights : List ℚ) :
    (lraFracs total weights).length = weights.length := by
  unfold lraFracs
  rw [(List.perm_insertionSort fracGE _).length_eq]
  simp

theorem lraFracs_snd_lt (total : Int) (weights : List ℚ) :
    ∀ p ∈ lraFracs total weights, p.2 < weights.length := by
  intro p hp
  unfold lraFracs at hp
  rw [(List.perm_insertionSort fracGE _).mem_iff, List.mem_map] at hp
  obtain ⟨i, hi, rfl⟩ := hp
  exact List.mem_range.mp hi

theorem lra_uniform_eq (total : Int) (weights : List ℚ) (h0 : ¬ total ≤ 0)
    (hw : ¬ weights = []) (hs : lraPosSum weights ≤ 0) :
    largestRemainderIntAllocation total weights =
      applyBumps (List.replicate weights.length (total / (weights.length : Int)))
        (List.range
          (total - total / (weights.length : Int) * (weights.length : Int)).toNat) := by
  unfold largestRemainderIntAllocation
  rw [if_neg h0, if_neg hw, if_pos hs]

theorem lra_main_eq (total : Int) (weights : List ℚ) (h0 : ¬ total ≤ 0)
    (hw : ¬ weights = []) (hs : ¬ lraPosSum weights ≤ 0) :
    largestRemainderIntAllocation total weights =
      applyBumps (lraFloors total weights)
        ((List.range (lraRem total weights).toNat).map
          (fun j => ((lraFracs total weights).getD
            (j % (lraFracs total weights).length) (0, 0)).2)) := by
  unfold largestRemainderIntAllocation
  rw [if_neg h0, if_neg hw, if_neg hs]

/-- C8: for every nonnegative integer total and non-empty weight list, the
largest-remainder allocation returns a list of nonnegative integers of the same
length as the weights whose sum is exactly the total (positive weights are used
proportionally; a uniform split applies when no weight is positive). -/
theorem c8_largest_remainder (total : Int) (weights : List ℚ)
    (htot : 0 ≤ total) (hw : weights ≠ []) :
    (largestRemainderIntAllocation total weights).length = weights.length ∧
    (∀ x ∈ largestRemainderIntAllocation total weights, 0 ≤ x) ∧
    (largestRemainderIntAllocation total weights).sum = total := by
  by_cases h0 : total ≤ 0
  · have htz : total = 0 := le_antisymm h0 htot
    unfold largestRemainderIntAllocation
    rw [if_pos h0]
    refine ⟨by simp, by simp, ?_⟩
    rw [htz]
    simp
  · by_cases hs : lraPosSum weights ≤ 0
    · rw [lra_uniform_eq total weights h0 hw hs]
      have hnpos : 0 < weights.length := List.length_pos.mpr hw
      have hnz : (weights.length : Int) ≠ 0 := by exact_mod_cast hnpos.ne'
      have hkey : (weights.length : Int) * (total / (weights.length : Int)) +
          total % (weights.length : Int) = total := Int.ediv_add_emod total weights.length
      have hcomm : total / (weights.length : Int) * (weights.length : Int) =
          (weights.length : Int) * (total / (weights.length : Int)) := mul_comm _ _
      have hrem_eq : total - total / (weights.length : Int) * (weights.length : Int) =
          total % (weights.length : Int) := by
        rw [hcomm]
        omega
      have hrem0 : 0 ≤ total - total / (weights.length : Int) * (weights.length : Int) := by
        rw [hrem_eq]
        exact Int.emod_nonneg total hnz
      have hremlt : total - total / (weights.length : Int) * (weights.length : Int) <
          (weights.length : Int) := by
        rw [hrem_eq]
        exact Int.emod_lt_of_pos total (by exact_mod_cast hnpos)
      have hbnn : 0 ≤ total / (weights.length : Int) :=
        Int.ediv_nonneg htot (by exact_mod_cast hnpos.le)
      have hidx : ∀ i ∈ List.range
          (total - total / (weights.length : Int) * (weights.length : Int)).toNat,
          i < (List.replicate weights.length (total / (weights.length : Int))).length := by
        intro i hi
        rw [List.length_replicate]
        have h1 := List.mem_range.mp hi
        omega
      refine ⟨?_, ?_, ?_⟩
      · rw [applyBumps_length, List.length_replicate]
      · apply applyBumps_nonneg
        intro x hx
        rw [(List.mem_replicate.mp hx).2]
        exact hbnn
      · rw [applyBumps_sum _ _ hidx, List.sum_replicate, List.length_range, nsmul_eq_mul]
        have h2 : ((total - total / (weights.length : Int) *
            (weights.length : Int)).toNat : Int) =
            total - total / (weights.length : Int) * (weights.length : Int) :=
          Int.toNat_of_nonneg hrem0
        linarith [hkey, hrem_eq, h2]
    · rw [lra_main_eq total weights h0 hw hs]
      have hspos : 0 < lraPosSum weights := lt_of_not_le hs
      have hlen_pos : 0 < (lraFracs total weights).length := by
        rw [lraFracs_length]
        exact List.length_pos.mpr hw
      have hidx : ∀ i ∈ (List.range (lraRem total weights).toNat).map
          (fun j => ((lraFracs total weights).getD
            (j % (lraFracs total weights).length) (0, 0)).2),
          i < (lraFloors total weights).length := by
        intro i hi
        rw [List.mem_map] at hi
        obtain ⟨j, -, rfl⟩ := hi
        have hj : j % (lraFracs total weights).length < (lraFracs total weights).length :=
          Nat.mod_lt _ hlen_pos
        have hmem : (lraFracs total weights).getD
            (j % (lraFracs total weights).length) (0, 0) ∈ lraFracs total weights := by
          rw [List.getD_eq_getElem _ _ hj]
          exact List.getElem_mem hj
        rw [lraFloors_length]
        exact lraFracs_snd_lt total weights _ hmem
      refine ⟨?_, ?_, ?_⟩
      · rw [applyBumps_length, lraFloors_length]
      · exact applyBumps_nonneg _ _ (lraFloors_nonneg total weights htot hspos)
      · rw [applyBumps_sum _ _ hidx, List.length_map, List.length_range]
        have h2 : ((lraRem total weights).toNat : Int) = lraRem total weights :=
          Int.toNat_of_nonneg (lraRem_nonneg total weights hspos)
        have h3 : lraRem total weights = total - (lraFloors total weights).sum := rfl
        omega

/-- Witness for C8: transactions=7 redistributed across 3 channels weighted
1, 2, 3 yields three nonnegative integers summing to exactly 7. -/
theorem c8_witness :
    (largestRemainderIntAllocation 7 [1, 2, 3]).length = 3 ∧
    (∀ x ∈ largestRemainderIntAllocation 7 [1, 2, 3], 0 ≤ x) ∧
    (largestRemainderIntAllocation 7 [1, 2, 3]).sum = 7 :=
  c8_largest_remainder 7 [1, 2, 3] (by norm_num) (by simp)
